import Mathlib

/-!
# Verification of the RAG-experiments client against its specification

A shallow embedding, in Lean, of the browser client of a document-grounded
conversational assistant and of its operational bootstrap script, together
with proofs and refutations of the specified properties.

Conventions of the embedding:
* TypeScript objects become Lean structures; optional / possibly-`undefined`
  fields become `Option`.
* JavaScript truthiness on strings (`s || d`) is modelled explicitly
  (`jsOrStr`); absent fields and the empty string are both falsy.
* Network requests are modelled by passing the response (`Except Nat α`:
  either a value or an HTTP error status) as an explicit argument; the
  number of requests an operation issues is returned in its result.
* `localStorage` is modelled as the value most recently written for a key.
* Byte-level JSON parsing of streamed payloads is abstracted into an
  inductive type of parsed lines (`SSELine`); all framing decisions of the
  source (the dispatch on payload shape, truthiness tests, accumulation
  order) are transcribed from the code.
-/

namespace RAG

/-- JS truthiness fallback `o || d` for an optional string field:
`undefined` and the empty string both fall back to the default. -/
def jsOrStr (o : Option String) (d : String) : String :=
  match o with
  | none => d
  | some s => if s = "" then d else s

/-- JS `o || null` for an optional string: empty string collapses to null. -/
def jsOrNull (o : Option String) : Option String :=
  match o with
  | none => none
  | some s => if s = "" then none else some s

/-- Models `String.prototype.startsWith` on the character level. -/
def strStartsWith (s pre : String) : Bool :=
  pre.data.isPrefixOf s.data

/-! ## Shared type vocabulary (`src/frontend/src/types.ts`) -/

/-- The `role` field of a `Message`: `'user' | 'assistant'`. -/
inductive Role
  | user
  | assistant
deriving DecidableEq, Repr

/-- One retrieved evidence chunk (`Source` in `types.ts`). -/
structure Source where
  index : Nat
  page : Option Nat
  content : String
  source : String
deriving DecidableEq, Repr

/-- One turn of a conversation (`Message` in `types.ts`).
`sources` is optional in the interface; messages created by the chat hook
carry either no list or an explicit one. -/
structure Message where
  role : Role
  content : String
  sources : Option (List Source)
deriving DecidableEq, Repr

/-- Shorthand for the optimistically appended user message of `sendMessage`. -/
def userMsg (content : String) : Message :=
  ⟨Role.user, content, none⟩

/-! ## Authentication state container (`context/AuthProvider.tsx`) -/

/-- The auth state: the persisted `auth_token` storage key and the reactive
`token` state, hydrated from storage at construction. -/
structure AuthState where
  stored : Option String
  token : Option String
deriving DecidableEq, Repr

/-- `login`: writes the token to storage and to state. -/
def login (_a : AuthState) (newToken : String) : AuthState :=
  ⟨some newToken, some newToken⟩

/-- `logout`: removes the token from storage and sets state to null. -/
def logout (_a : AuthState) : AuthState :=
  ⟨none, none⟩

/-- `isAuthenticated: !!token`. -/
def isAuthenticated (a : AuthState) : Bool :=
  a.token.isSome

/-! ## Document management hook (`hooks/useDocuments.ts`) -/

/-- Document status union. -/
inductive DocStatus
  | pending
  | processing
  | completed
  | failed
deriving DecidableEq, Repr

/-- One document entry (`Document` in `useDocuments.ts`). -/
structure Document where
  id : String
  filename : String
  status : DocStatus
  created_at : String
  error_message : Option String
deriving DecidableEq, Repr

/-- `MAX_FILE_SIZE = 50 * 1024 * 1024` (bytes). -/
def MAX_FILE_SIZE : Nat := 50 * 1024 * 1024

/-- Renders `(size / (1024 * 1024)).toFixed(2)`: the size in MiB with two
decimal places.  The JS floating division followed by `toFixed(2)` is
modelled as exact rational rounding, half away from zero. -/
def mbTwoDecimals (size : Nat) : String :=
  let hundredths : Nat := (size * 100 * 2 + 1024 * 1024) / (2 * 1024 * 1024)
  let whole := hundredths / 100
  let frac := hundredths % 100
  toString whole ++ "." ++ (if frac < 10 then "0" ++ toString frac else toString frac)

/-- The blocking alert text of the oversized-upload rejection. -/
def tooLargeMessage (size : Nat) : String :=
  "File is too large. Maximum size is 50MB. Your file is " ++ mbTwoDecimals size ++ "MB."

/-- Result of one `fetchDocuments()` call: the new document list, the new
auth state, and the number of requests issued to `/api/documents`. -/
structure FetchDocsResult where
  documents : List Document
  auth : AuthState
  requests : Nat
deriving DecidableEq, Repr

/-- `fetchDocuments()`: no-op without a token; replaces the list wholesale
on success; a 401 error triggers `logout()`; other errors are logged and
leave the list unchanged. -/
def fetchDocuments (documents : List Document) (auth : AuthState)
    (resp : Except Nat (List Document)) : FetchDocsResult :=
  match auth.token with
  | none => ⟨documents, auth, 0⟩
  | some _ =>
    match resp with
    | .ok data => ⟨data, auth, 1⟩
    | .error status =>
      if status = 401 then ⟨documents, logout auth, 1⟩ else ⟨documents, auth, 1⟩

/-- Result of one `uploadDocument(file)` call.  `uploadRequests` counts
POSTs to `/api/documents`, `listRequests` the refresh GETs; `alerts` the
blocking `alert(...)` messages shown; `loadingSet` whether
`setIsLoading(true)` ever ran; `isLoading` the final flag value. -/
structure UploadResult where
  documents : List Document
  auth : AuthState
  uploadRequests : Nat
  listRequests : Nat
  alerts : List String
  loadingSet : Bool
  isLoading : Bool
deriving DecidableEq, Repr

/-- `uploadDocument(file)`: early-returns without a token; rejects files
whose size exceeds `MAX_FILE_SIZE` with an alert and no request; otherwise
posts the multipart body, refreshing the list on success; a 401 on the
upload triggers `logout()` and skips the refresh; `setIsLoading(false)`
runs in `finally` on every path. -/
def uploadDocument (documents : List Document) (auth : AuthState) (fileSize : Nat)
    (uploadResp : Except Nat Unit) (listResp : Except Nat (List Document)) :
    UploadResult :=
  match auth.token with
  | none => ⟨documents, auth, 0, 0, [], false, false⟩
  | some _ =>
    if fileSize > MAX_FILE_SIZE then
      ⟨documents, auth, 0, 0, [tooLargeMessage fileSize], false, false⟩
    else
      match uploadResp with
      | .error status =>
        if status = 401 then
          ⟨documents, logout auth, 1, 0, [], true, false⟩
        else
          ⟨documents, auth, 1, 0, [], true, false⟩
      | .ok _ =>
        let f := fetchDocuments documents auth listResp
        ⟨f.documents, f.auth, 1, f.requests, [], true, false⟩

/-- Result of one `deleteDocument(filename)` call. -/
structure DeleteResult where
  documents : List Document
  auth : AuthState
  deleteRequests : Nat
  listRequests : Nat
deriving DecidableEq, Repr

/-- `deleteDocument(filename)`: issues the DELETE and refreshes the list;
a 401 on the DELETE triggers `logout()` and skips the refresh. -/
def deleteDocument (documents : List Document) (auth : AuthState)
    (delResp : Except Nat Unit) (listResp : Except Nat (List Document)) :
    DeleteResult :=
  match auth.token with
  | none => ⟨documents, auth, 0, 0⟩
  | some _ =>
    match delResp with
    | .error status =>
      if status = 401 then ⟨documents, logout auth, 1, 0⟩
      else ⟨documents, auth, 1, 0⟩
    | .ok _ =>
      let f := fetchDocuments documents auth listResp
      ⟨f.documents, f.auth, 1, f.requests⟩

/-! ## Settings hook (`hooks/useSettings.ts`, final revision)

The final revision of the hook: restricted local persistence, masked-key
placeholders and main-as-side mirroring. -/

/-- One entry of the model catalog (`ModelInfo`). -/
structure ModelInfo where
  model_name : String
  model_id : String
deriving DecidableEq, Repr

/-- The `Settings` state object.  The two float-valued sliders are modelled
as exact rationals (no arithmetic is performed on them). -/
structure Settings where
  temperature : ℚ
  strictMode : Bool
  rerankThreshold : ℚ
  llmModel1 : String
  llmModel2 : String
  embeddingModel : String
  rerankerModel : String
  apiKey : String
  sideApiKey : String
  useMainAsSide : Bool
deriving DecidableEq, Repr

/-- `DEFAULT_SETTINGS`. -/
def DEFAULT_SETTINGS : Settings :=
  { temperature := 1/5
    strictMode := false
    rerankThreshold := 0
    llmModel1 := ""
    llmModel2 := ""
    embeddingModel := ""
    rerankerModel := ""
    apiKey := ""
    sideApiKey := ""
    useMainAsSide := false }

/-- A `Partial<Settings>` argument: every field optional.
`useMainApiKeyForSide` is the extra `use_main_api_key_for_side` field that
the source smuggles in through an `as any` cast. -/
structure PartialSettings where
  temperature : Option ℚ := none
  strictMode : Option Bool := none
  rerankThreshold : Option ℚ := none
  llmModel1 : Option String := none
  llmModel2 : Option String := none
  embeddingModel : Option String := none
  rerankerModel : Option String := none
  apiKey : Option String := none
  sideApiKey : Option String := none
  useMainAsSide : Option Bool := none
  useMainApiKeyForSide : Option Bool := none
deriving DecidableEq, Repr

/-- The object spread `{ ...prev, ...newSettings }`. -/
def mergeSettings (s : Settings) (p : PartialSettings) : Settings :=
  { temperature := p.temperature.getD s.temperature
    strictMode := p.strictMode.getD s.strictMode
    rerankThreshold := p.rerankThreshold.getD s.rerankThreshold
    llmModel1 := p.llmModel1.getD s.llmModel1
    llmModel2 := p.llmModel2.getD s.llmModel2
    embeddingModel := p.embeddingModel.getD s.embeddingModel
    rerankerModel := p.rerankerModel.getD s.rerankerModel
    apiKey := p.apiKey.getD s.apiKey
    sideApiKey := p.sideApiKey.getD s.sideApiKey
    useMainAsSide := p.useMainAsSide.getD s.useMainAsSide }

/-- The `setSettings` updater of `updateSettings`: merge the partial, then,
when the merged `useMainAsSide` flag is set, mirror a freshly supplied
primary model / primary key onto the secondary ones. -/
def applyUpdate (s : Settings) (p : PartialSettings) : Settings :=
  let updated := mergeSettings s p
  if updated.useMainAsSide then
    let u1 := match p.llmModel1 with
      | some m => { updated with llmModel2 := m }
      | none => updated
    match p.apiKey with
    | some k => { u1 with sideApiKey := k }
    | none => u1
  else updated

/-- The `/api/auth/users/me` response body. -/
structure UserData where
  llm_model : Option String := none
  llm_side_model : Option String := none
  masked_api_key : Option String := none
  masked_side_api_key : Option String := none
deriving DecidableEq, Repr

/-- The `/api/config` response body (the fields the hook reads). -/
structure ConfigData where
  embedding_model : String
  reranker_model : String
deriving DecidableEq, Repr

/-- The `setSettings` reconciliation applied after the mount-time fetch of
profile and system configuration: back-fill the model identifiers, record
the read-only models, keep the secret input fields empty. -/
def applyFetchProfile (s : Settings) (u : UserData) (c : ConfigData) : Settings :=
  { s with
    llmModel1 := jsOrStr u.llm_model ""
    llmModel2 := jsOrStr u.llm_side_model ""
    embeddingModel := c.embedding_model
    rerankerModel := c.reranker_model
    apiKey := ""
    sideApiKey := "" }

/-- The `setSettings` pass run after a successful profile update and
re-fetch: clear the secret input fields. -/
def applyRefetchClear (s : Settings) : Settings :=
  { s with apiKey := "", sideApiKey := "" }

/-- A JSON literal value as serialized into browser storage. -/
inductive JVal
  | jstr (s : String)
  | jnum (q : ℚ)
  | jbool (b : Bool)
deriving DecidableEq, Repr

/-- The `settingsToStore` object of the persistence effect: the JSON object
written to the `rag_settings` storage key on every settings change,
rendered as its ordered field list.  Built from the source's object
literal; the secret fields are deliberately not part of it. -/
def settingsToStore (s : Settings) : List (String × JVal) :=
  [ ("temperature", JVal.jnum s.temperature)
  , ("strictMode", JVal.jbool s.strictMode)
  , ("rerankThreshold", JVal.jnum s.rerankThreshold)
  , ("llmModel1", JVal.jstr s.llmModel1)
  , ("llmModel2", JVal.jstr s.llmModel2)
  , ("embeddingModel", JVal.jstr s.embeddingModel)
  , ("rerankerModel", JVal.jstr s.rerankerModel)
  , ("useMainAsSide", JVal.jbool s.useMainAsSide) ]

/-- Whole reactive state of the settings hook, plus the auth container it
uses. -/
structure SettingsHookState where
  settings : Settings
  availableModels : List ModelInfo
  maskedApiKey : Option String
  maskedSideApiKey : Option String
  auth : AuthState
deriving DecidableEq, Repr

/-- `updateSettings` fires a profile-update request when the partial
touches a model identifier, a credential field or the mirroring flag. -/
def touchesProfileFields (p : PartialSettings) : Bool :=
  p.llmModel1.isSome || p.llmModel2.isSome || p.apiKey.isSome ||
    p.sideApiKey.isSome || p.useMainApiKeyForSide.isSome

/-- The condition guarding the refetch after a successful update: a secret
was touched, or the (truthy) mirroring flag was sent. -/
def touchesSecretFields (p : PartialSettings) : Bool :=
  p.apiKey.isSome || p.sideApiKey.isSome || (p.useMainApiKeyForSide == some true)

/-- `updateSettings(newSettings, shouldPersist)`: optimistic local merge
(with mirroring), then, when persisting and profile fields were touched, a
PUT to `/api/auth/users/me` followed (when a secret was touched) by a
re-fetch refreshing the masked placeholders and clearing the secret
inputs; any 401 triggers `logout()`.  Returns the new hook state and the
number of requests issued. -/
def updateSettings (st : SettingsHookState) (p : PartialSettings)
    (shouldPersist : Bool) (putResp : Except Nat Unit)
    (refetchResp : Except Nat UserData) : SettingsHookState × Nat :=
  let st := { st with settings := applyUpdate st.settings p }
  if !shouldPersist then (st, 0)
  else if touchesProfileFields p then
    match st.auth.token with
    | none => (st, 0)
    | some _ =>
      match putResp with
      | .error status =>
        if status = 401 then ({ st with auth := logout st.auth }, 1) else (st, 1)
      | .ok _ =>
        if touchesSecretFields p then
          match refetchResp with
          | .error status =>
            if status = 401 then ({ st with auth := logout st.auth }, 2)
            else (st, 2)
          | .ok u =>
            ({ st with
                maskedApiKey := jsOrNull u.masked_api_key
                maskedSideApiKey := jsOrNull u.masked_side_api_key
                settings := applyRefetchClear st.settings }, 2)
        else (st, 1)
  else (st, 0)

/-- The mount-time fetch effect: models catalog, user profile, system
configuration, issued in order; the first failing request aborts the
effect, a 401 additionally triggering `logout()`. -/
def fetchSettingsData (st : SettingsHookState)
    (modelsResp : Except Nat (List ModelInfo)) (userResp : Except Nat UserData)
    (configResp : Except Nat ConfigData) : SettingsHookState × Nat :=
  match st.auth.token with
  | none => (st, 0)
  | some _ =>
    match modelsResp with
    | .error status =>
      if status = 401 then ({ st with auth := logout st.auth }, 1) else (st, 1)
    | .ok models =>
      let st := { st with availableModels := models }
      match userResp with
      | .error status =>
        if status = 401 then ({ st with auth := logout st.auth }, 2) else (st, 2)
      | .ok u =>
        match configResp with
        | .error status =>
          if status = 401 then ({ st with auth := logout st.auth }, 3) else (st, 3)
        | .ok c =>
          ({ st with
              settings := applyFetchProfile st.settings u c
              maskedApiKey := jsOrNull u.masked_api_key
              maskedSideApiKey := jsOrNull u.masked_side_api_key }, 3)

/-- One event in the life of the settings hook, carrying the backend
responses it observes. -/
inductive SettingsEvent
  | update (p : PartialSettings) (shouldPersist : Bool)
      (putResp : Except Nat Unit) (refetchResp : Except Nat UserData)
  | fetched (modelsResp : Except Nat (List ModelInfo))
      (userResp : Except Nat UserData) (configResp : Except Nat ConfigData)

/-- The state reached after one settings-hook event. -/
def stepSettings (st : SettingsHookState) : SettingsEvent → SettingsHookState
  | .update p shouldPersist putResp refetchResp =>
    (updateSettings st p shouldPersist putResp refetchResp).1
  | .fetched modelsResp userResp configResp =>
    (fetchSettingsData st modelsResp userResp configResp).1

/-- The state reached after a sequence of settings-hook events. -/
def runSettings (st : SettingsHookState) (es : List SettingsEvent) :
    SettingsHookState :=
  es.foldl stepSettings st

/-! ## Chat session hook (`hooks/useChat.ts`, `processLine` revision)

The streamed body is modelled after SSE framing and JSON parsing: each
line of the stream is either `data: `-prefixed (carrying the `[DONE]`
sentinel, a parsed JSON object, or unparsable text) or a bare line
(parsable JSON or not).  All dispatch logic on the parsed payloads is
transcribed from `processLine`. -/

/-- JS truthiness of a possibly-absent string field (`undefined`, `null`
and `""` are falsy). -/
def jsTruthyStr (o : Option String) : Bool :=
  match o with
  | none => false
  | some s => s ≠ ""

/-- The `data.error` sub-object of an upstream error payload:
its `.message` field and its `JSON.stringify` rendering. -/
structure JErr where
  message : Option String := none
  stringified : String := ""
deriving DecidableEq, Repr

/-- A parsed streamed JSON payload, carrying exactly the fields
`processLine` inspects: `data.type`, `data.content`, `data.data` (the
source list), `data.choices?.[0]?.delta?.content`, and `data.error`. -/
structure JObj where
  type : Option String := none
  content : Option String := none
  dataArr : List Source := []
  deltaContent : Option String := none
  error : Option JErr := none
deriving DecidableEq, Repr

/-- One line handed to `processLine`, after the `data: ` framing test,
`slice(6).trim()` and `JSON.parse` of the source are applied. -/
inductive SSELine
  | dataDone
  | dataJson (j : JObj)
  | dataMalformed
  | bareJson (j : JObj)
  | bareOther
deriving DecidableEq, Repr

/-- A well-formed content-delta event line
(`data: {"choices":[{"delta":{"content": d}}]}`). -/
def deltaLine (d : String) : SSELine :=
  SSELine.dataJson { deltaContent := some d }

/-- In-order concatenation of a list of text fragments. -/
def concatStrings : List String → String
  | [] => ""
  | d :: rest => d ++ concatStrings rest

/-- The mutable locals of the streaming loop of `sendMessage`, together
with the transcript it updates. -/
structure StreamState where
  messages : List Message
  fullContent : String
  sources : List Source
  isFirstChunk : Bool
deriving DecidableEq, Repr

/-- The recurring `setMessages` updater shape: copy the list and mutate
the last message in place when it is an assistant message. -/
def updateLastIfAssistant (f : Message → Message) : List Message → List Message
  | [] => []
  | [m] => if m.role = Role.assistant then [f m] else [m]
  | m :: rest => m :: updateLastIfAssistant f rest

/-- Does `pat` occur as a contiguous run inside `l`? -/
def containsSeq (pat : List Char) : List Char → Bool
  | [] => pat.isEmpty
  | c :: rest => pat.isPrefixOf (c :: rest) || containsSeq pat rest

/-- Models `String.prototype.includes`. -/
def strContains (s pat : String) : Bool :=
  containsSeq pat.data s.data

/-- Tries to match the regular expression `Please try again in (\d+\.?\d*s)`
at the head of the character list, returning the captured group. -/
def matchWaitAt (l : List Char) : Option String :=
  if "Please try again in ".data.isPrefixOf l then
    let rest := l.drop "Please try again in ".data.length
    let ds := rest.takeWhile Char.isDigit
    let rest2 := rest.dropWhile Char.isDigit
    if ds.isEmpty then none
    else
      match rest2 with
      | '.' :: r3 =>
        let ds2 := r3.takeWhile Char.isDigit
        let r4 := r3.dropWhile Char.isDigit
        match r4 with
        | 's' :: _ => some (String.mk (ds ++ '.' :: ds2 ++ ['s']))
        | _ => none
      | 's' :: _ => some (String.mk (ds ++ ['s']))
      | _ => none
  else none

/-- Scans the string left to right for the first match of the wait-time
pattern, as the regex engine does. -/
def findWaitTime : List Char → Option String
  | [] => none
  | c :: rest =>
    match matchWaitAt (c :: rest) with
    | some w => some w
    | none => findWaitTime rest

/-- The user-friendly reformatting applied to upstream rate-limit errors. -/
def formatRateLimit (em : String) : String :=
  if strContains em "Rate limit reached" then
    "Rate limit reached. Please try again in " ++
      (findWaitTime em.data).getD "a few seconds" ++ "."
  else em

/-- `processLine` of `sendMessage`: dispatch one streamed line against the
current stream state.  The early `return` statements of the source exit
`processLine` only, so processing of subsequent lines continues. -/
def processLine (st : StreamState) : SSELine → StreamState
  | .dataDone => st
  | .dataMalformed => st
  | .bareOther => st
  | .dataJson j =>
    if j.type = some "error" then
      let errorMessage := jsOrStr j.content "An error occurred"
      { st with
        messages := updateLastIfAssistant
          (fun m => { m with content := "Error: " ++ errorMessage }) st.messages }
    else if j.type = some "sources" then
      let st := { st with sources := j.dataArr }
      if !st.isFirstChunk then
        { st with
          messages := updateLastIfAssistant
            (fun m => { m with sources := some st.sources }) st.messages }
      else st
    else if jsTruthyStr j.deltaContent then
      let c := j.deltaContent.getD ""
      let fullContent := st.fullContent ++ c
      if st.isFirstChunk then
        { st with
          messages := st.messages ++ [⟨Role.assistant, fullContent, some st.sources⟩]
          fullContent := fullContent
          isFirstChunk := false }
      else
        { st with
          messages := updateLastIfAssistant
            (fun m => { m with content := fullContent }) st.messages
          fullContent := fullContent }
    else st
  | .bareJson j =>
    let errorMessage : Option String :=
      match j.error with
      | some e => some (jsOrStr e.message e.stringified)
      | none =>
        if j.type = some "error" then some (jsOrStr j.content "An error occurred")
        else none
    match errorMessage with
    | none => st
    | some em0 =>
      if em0 = "" then st
      else
        let em := formatRateLimit em0
        if st.isFirstChunk then
          { st with messages := st.messages ++ [⟨Role.assistant, "Error: " ++ em, none⟩] }
        else
          { st with
            messages := updateLastIfAssistant
              (fun m => { m with content := "Error: " ++ em }) st.messages }

/-- The streaming read loop: lines are consumed strictly in order. -/
def runStream (st : StreamState) (lines : List SSELine) : StreamState :=
  lines.foldl processLine st

/-- The post-loop reconciliation: unless no content fragment ever arrived,
rewrite the trailing assistant message with the accumulated text and the
final source list. -/
def finalUpdate (st : StreamState) : StreamState :=
  if !st.isFirstChunk then
    { st with
      messages := updateLastIfAssistant
        (fun m => { m with content := st.fullContent, sources := some st.sources })
        st.messages }
  else st

/-- `response.ok` of the Fetch API. -/
def httpOk (status : Nat) : Bool :=
  decide (200 ≤ status) && decide (status < 300)

/-- The generic failure text written by the `catch` handler of
`sendMessage`. -/
def sorryText (detail : String) : String :=
  "Sorry, I encountered an error. Please try again.\n\nDetails: " ++ detail

/-- The `/api/chat` response : HTTP status; the `content` field of the
best-effort parsed JSON error body (`none` when unparsable or absent);
and the SSE lines of the streamed body (`none` models a null body). -/
structure ChatResponse where
  status : Nat
  errContent : Option String := none
  stream : Option (List SSELine) := none
deriving DecidableEq, Repr

/-- Result of one `sendMessage` call. -/
structure SendResult where
  messages : List Message
  auth : AuthState
  requests : Nat
  isLoading : Bool
deriving DecidableEq, Repr

/-- `sendMessage(content)`: append the user message optimistically; a 401
triggers `logout()` and returns; a non-success status appends an
`Error: <message>` assistant message and throws, upon which the
surrounding `catch` rewrites that same trailing assistant message to the
generic failure text; a success status drives the streaming loop and the
final reconciliation.  `setIsLoading(false)` runs in `finally`. -/
def sendMessage (messages0 : List Message) (auth : AuthState) (content : String)
    (resp : ChatResponse) : SendResult :=
  let msgs := messages0 ++ [userMsg content]
  if resp.status = 401 then
    ⟨msgs, logout auth, 1, false⟩
  else if !httpOk resp.status then
    let errorMessage := jsOrStr resp.errContent "Network response was not ok"
    let msgs := msgs ++ [⟨Role.assistant, "Error: " ++ errorMessage, none⟩]
    let msgs := updateLastIfAssistant
      (fun m => { m with content := sorryText errorMessage }) msgs
    ⟨msgs, auth, 1, false⟩
  else
    match resp.stream with
    | none => ⟨msgs, auth, 1, false⟩
    | some lines =>
      let st := finalUpdate (runStream ⟨msgs, "", [], true⟩ lines)
      ⟨st.messages, auth, 1, false⟩

/-- Result of one `fetchHistory()` call. -/
structure HistoryResult where
  messages : List Message
  auth : AuthState
  requests : Nat
deriving DecidableEq, Repr

/-- `fetchHistory()`: replaces the transcript wholesale on success; 401
triggers `logout()`; other failures leave the transcript unchanged. -/
def fetchHistory (messages : List Message) (auth : AuthState)
    (resp : Except Nat (List Message)) : HistoryResult :=
  match auth.token with
  | none => ⟨messages, auth, 0⟩
  | some _ =>
    match resp with
    | .ok data => ⟨data, auth, 1⟩
    | .error status =>
      if status = 401 then ⟨messages, logout auth, 1⟩ else ⟨messages, auth, 1⟩

/-! ## Citation tooltip excerpt cleaning (`formatChunk` in the citation
tooltip component)

The algorithm is embedded on character lists; `formatChunk` wraps it for
`String`.  The JS regex replacement
`text.replace(/(?<!\n)(?<!\.)(\n)(?!\n)(?![A-Z])/g, ' ')` is a pointwise
substitution: every line break is replaced by a space exactly when its
original neighbours satisfy the four lookaround conditions. -/

/-- ASCII uppercase test (`[A-Z]`). -/
def isUpperAZ (c : Char) : Bool :=
  decide ('A' ≤ c) && decide (c ≤ 'Z')

/-- Uppercase test on an optional neighbouring character (fails at a
string boundary, as the lookahead does). -/
def optIsUpper : Option Char → Bool
  | none => false
  | some c => isUpperAZ c

/-- The four lookaround conditions of the line-break regex: not preceded
by a line break or a period, not followed by a line break or an uppercase
letter. -/
def breakRemovable (p n : Option Char) : Bool :=
  !(p == some '\n') && !(p == some '.') && !(n == some '\n') && !(optIsUpper n)

/-- The substitution applied at one character, given its original
neighbours. -/
def breakStep (p : Option Char) (c : Char) (n : Option Char) : Char :=
  if c = '\n' && breakRemovable p n then ' ' else c

/-- The global regex replacement, threading the original previous
character through the scan. -/
def replaceBreaksAux (p : Option Char) : List Char → List Char
  | [] => []
  | c :: rest => breakStep p c rest.head? :: replaceBreaksAux (some c) rest

/-- `text.replace(/(?<!\n)(?<!\.)(\n)(?!\n)(?![A-Z])/g, ' ')`. -/
def replaceBreaks (l : List Char) : List Char :=
  replaceBreaksAux none l

/-- The whitespace characters `trim()` strips (restricted to the ASCII
whitespace that can occur here). -/
def isJsSpace (c : Char) : Bool :=
  c = ' ' || c = '\n' || c = '\t' || c = '\r'

/-- Strip leading whitespace. -/
def ltrim (l : List Char) : List Char :=
  l.dropWhile isJsSpace

/-- Strip trailing whitespace. -/
def rtrim : List Char → List Char
  | [] => []
  | c :: rest =>
    match rtrim rest with
    | [] => if isJsSpace c then [] else [c]
    | r => c :: r

/-- `text.trim()`. -/
def jsTrim (l : List Char) : List Char :=
  rtrim (ltrim l)

/-- `text.match(/[A-Z]/)` followed by `text.substring(matchStart.index)`:
drop everything before the first uppercase letter, `none` when no
uppercase letter exists. -/
def cutBeforeFirstUpper : List Char → Option (List Char)
  | [] => none
  | c :: rest =>
    if isUpperAZ c then some (c :: rest) else cutBeforeFirstUpper rest

/-- `text.lastIndexOf('.')` followed by
`text.substring(0, lastPeriodIndex + 1)`: keep everything up to and
including the last period, `none` when no period exists. -/
def cutAfterLastPeriod : List Char → Option (List Char)
  | [] => none
  | c :: rest =>
    match cutAfterLastPeriod rest with
    | some r => some (c :: r)
    | none => if c = '.' then some [c] else none

/-- The excerpt-cleaning algorithm of the citation tooltip, on character
lists. -/
def formatChunkList (l : List Char) : List Char :=
  let text := jsTrim (replaceBreaks l)
  match cutBeforeFirstUpper text with
  | none => text
  | some u =>
    match cutAfterLastPeriod u with
    | none => u
    | some v => v

/-- `formatChunk` of the citation tooltip component. -/
def formatChunk (s : String) : String :=
  String.mk (formatChunkList s.data)

/-- A list is break-stable when no line break in it is removable in its
own context: the regex replacement leaves it unchanged. -/
def goodBreaks (p : Option Char) : List Char → Bool
  | [] => true
  | c :: rest => (!(c == '\n') || !(breakRemovable p rest.head?)) && goodBreaks (some c) rest

/-! ## Secrets bootstrap script (`scripts/bootstrap.sh`)

The `.env` file is modelled as its list of lines (`none` when the file does
not exist); `openssl`-generated values are opaque string parameters. -/

/-- The header comment written when the file is created. -/
def envHeader : String := "# Environment variables for RAG Experiments"

/-- `grep -q "^${KEY_NAME}=" "$ENV_FILE"`: some line starts with `KEY=`. -/
def hasKeyLine (lines : List String) (key : String) : Bool :=
  lines.any (fun l => strStartsWith l (key ++ "="))

/-- `check_and_add_key`: if no assignment line for `key` exists, append a
blank line and `KEY=value`; otherwise leave the file untouched. -/
def check_and_add_key (lines : List String) (key value : String) : List String :=
  if hasKeyLine lines key then lines else lines ++ ["", key ++ "=" ++ value]

/-- One run of `bootstrap.sh`: create the file with its header when absent,
then ensure `JWT_SECRET_KEY` and `ENCRYPTION_KEY` assignments exist,
generating `jwtVal` / `fernetVal` for the missing ones. -/
def runBootstrap (file : Option (List String)) (jwtVal fernetVal : String) :
    List String :=
  let lines := match file with
    | none => [envHeader]
    | some ls => ls
  check_and_add_key (check_and_add_key lines "JWT_SECRET_KEY" jwtVal)
    "ENCRYPTION_KEY" fernetVal

/-! ## General lemmas -/

theorem isPrefixOf_append_self {α : Type _} [DecidableEq α] (a b : List α) :
    a.isPrefixOf (a ++ b) = true := by
  induction a with
  | nil => simp [List.isPrefixOf]
  | cons x xs ih => simp [List.isPrefixOf, ih]

theorem strStartsWith_append (a b : String) : strStartsWith (a ++ b) a = true := by
  simp [strStartsWith, String.data_append, isPrefixOf_append_self]

theorem updateLastIfAssistant_append (f : Message → Message) (base : List Message)
    (m : Message) :
    updateLastIfAssistant f (base ++ [m]) =
      base ++ [if m.role = Role.assistant then f m else m] := by
  induction base with
  | nil =>
    simp only [List.nil_append, updateLastIfAssistant]
    split <;> rfl
  | cons b bs ih =>
    cases bs with
    | nil =>
      simp only [List.cons_append, List.nil_append, updateLastIfAssistant]
      split <;> rfl
    | cons c cs =>
      simpa [updateLastIfAssistant] using ih

theorem updateLastIfAssistant_append2 (f : Message → Message) (base : List Message)
    (u m : Message) :
    updateLastIfAssistant f (base ++ [u, m]) =
      base ++ [u, if m.role = Role.assistant then f m else m] := by
  have h := updateLastIfAssistant_append f (base ++ [u]) m
  simpa [List.append_assoc] using h

/-! ## Bootstrap lemmas -/

theorem hasKeyLine_check_self (ls : List String) (k v : String) :
    hasKeyLine (check_and_add_key ls k v) k = true := by
  unfold check_and_add_key
  split
  · assumption
  · simp [hasKeyLine, List.any_append]
    exact Or.inr (Or.inr (strStartsWith_append (k ++ "=") v))

theorem hasKeyLine_check_mono (ls : List String) (k k' v : String)
    (h : hasKeyLine ls k = true) :
    hasKeyLine (check_and_add_key ls k' v) k = true := by
  unfold check_and_add_key
  split
  · exact h
  · simp [hasKeyLine, List.any_append] at h ⊢
    exact Or.inl h

theorem check_skip (ls : List String) (k v : String) (h : hasKeyLine ls k = true) :
    check_and_add_key ls k v = ls := by
  simp [check_and_add_key, h]

theorem check_extends (ls : List String) (k v : String) :
    ∃ t, check_and_add_key ls k v = ls ++ t := by
  unfold check_and_add_key
  split
  · exact ⟨[], by simp⟩
  · exact ⟨_, rfl⟩

/-! ## Claim theorems: bootstrap and documents -/

/-- C9: the secrets-bootstrap script is idempotent: after one run both
`JWT_SECRET_KEY` and `ENCRYPTION_KEY` assignments are present; the run
only ever appends to the existing lines (no existing assignment line is
rewritten); and any subsequent run leaves the file byte-for-byte
unchanged. -/
theorem c9_bootstrap_idempotent (file : Option (List String)) (ls : List String)
    (v1 v2 w1 w2 x1 x2 : String) :
    hasKeyLine (runBootstrap file v1 v2) "JWT_SECRET_KEY" = true ∧
    hasKeyLine (runBootstrap file v1 v2) "ENCRYPTION_KEY" = true ∧
    (∃ t, runBootstrap (some ls) x1 x2 = ls ++ t) ∧
    runBootstrap (some (runBootstrap file v1 v2)) w1 w2 = runBootstrap file v1 v2 := by
  have hJ : ∀ lines, hasKeyLine (runBootstrap (some lines) v1 v2) "JWT_SECRET_KEY" = true :=
    fun lines => hasKeyLine_check_mono _ _ _ _ (hasKeyLine_check_self lines _ v1)
  have hJ0 : hasKeyLine (runBootstrap file v1 v2) "JWT_SECRET_KEY" = true := by
    cases file with
    | none => exact hasKeyLine_check_mono _ _ _ _ (hasKeyLine_check_self _ _ v1)
    | some lines => exact hJ lines
  have hE0 : hasKeyLine (runBootstrap file v1 v2) "ENCRYPTION_KEY" = true := by
    cases file <;> exact hasKeyLine_check_self _ _ _
  refine ⟨hJ0, hE0, ?_, ?_⟩
  · obtain ⟨t1, ht1⟩ := check_extends ls "JWT_SECRET_KEY" x1
    obtain ⟨t2, ht2⟩ := check_extends (check_and_add_key ls "JWT_SECRET_KEY" x1)
      "ENCRYPTION_KEY" x2
    refine ⟨t1 ++ t2, ?_⟩
    show check_and_add_key (check_and_add_key ls _ x1) _ x2 = _
    rw [ht2, ht1, List.append_assoc]
  · show check_and_add_key (check_and_add_key (runBootstrap file v1 v2) _ w1) _ w2 = _
    rw [check_skip _ _ _ hJ0, check_skip _ _ _ hE0]

/-- C7: an upload of a file strictly larger than `50 * 1024 * 1024` bytes
issues no request at all, raises the blocking alert reporting the file's
size, leaves the document list unchanged, and never sets the loading
flag. -/
theorem c7_oversized_upload_rejected (docs : List Document) (auth : AuthState)
    (t : String) (size : Nat) (uploadResp : Except Nat Unit)
    (listResp : Except Nat (List Document)) (htok : auth.token = some t)
    (hsize : size > MAX_FILE_SIZE) :
    uploadDocument docs auth size uploadResp listResp =
      ⟨docs, auth, 0, 0, [tooLargeMessage size], false, false⟩ := by
  unfold uploadDocument
  rw [htok]
  simp [hsize]

/-- C7 witness: the rejection at the concrete size `51 * 1024 * 1024`. -/
theorem c7_oversized_upload_rejected_witness :
    uploadDocument [] ⟨some "t", some "t"⟩ (51 * 1024 * 1024) (Except.ok ())
        (Except.ok []) =
      ⟨[], ⟨some "t", some "t"⟩, 0, 0, [tooLargeMessage (51 * 1024 * 1024)],
        false, false⟩ :=
  c7_oversized_upload_rejected [] ⟨some "t", some "t"⟩ "t" (51 * 1024 * 1024)
    (Except.ok ()) (Except.ok []) rfl (by decide)

/-- C10: a file of exactly `50 * 1024 * 1024` bytes is not rejected: the
guard fires only for strictly larger sizes, so the upload request is
issued (and no alert is raised, the loading flag being set for the
duration). -/
theorem c10_boundary_size_uploaded (docs : List Document) (auth : AuthState)
    (t : String) (uploadResp : Except Nat Unit)
    (listResp : Except Nat (List Document)) (htok : auth.token = some t) :
    (uploadDocument docs auth (50 * 1024 * 1024) uploadResp listResp).uploadRequests = 1 ∧
    (uploadDocument docs auth (50 * 1024 * 1024) uploadResp listResp).alerts = [] ∧
    (uploadDocument docs auth (50 * 1024 * 1024) uploadResp listResp).loadingSet = true := by
  unfold uploadDocument
  rw [htok]
  have hle : ¬ (50 * 1024 * 1024 > MAX_FILE_SIZE) := by decide
  cases uploadResp with
  | error status => simp [hle]; split <;> simp
  | ok _ => simp [hle]

/-- C10 witness: the boundary upload at concrete inputs. -/
theorem c10_boundary_size_uploaded_witness :
    (uploadDocument [] ⟨some "t", some "t"⟩ (50 * 1024 * 1024) (Except.ok ())
        (Except.ok [])).uploadRequests = 1 ∧
    (uploadDocument [] ⟨some "t", some "t"⟩ (50 * 1024 * 1024) (Except.ok ())
        (Except.ok [])).alerts = [] ∧
    (uploadDocument [] ⟨some "t", some "t"⟩ (50 * 1024 * 1024) (Except.ok ())
        (Except.ok [])).loadingSet = true :=
  c10_boundary_size_uploaded [] ⟨some "t", some "t"⟩ "t" (Except.ok ())
    (Except.ok []) rfl

/-! ## Claim theorems: settings -/

/-- C1: whatever sequence of update and fetch events the settings hook
processes, the JSON object written to the `rag_settings` storage key has
exactly the eight non-secret fields, and in particular never contains an
`apiKey` or `sideApiKey` field. -/
theorem c1_no_secret_persisted (st0 : SettingsHookState) (es : List SettingsEvent) :
    (settingsToStore (runSettings st0 es).settings).map Prod.fst =
      ["temperature", "strictMode", "rerankThreshold", "llmModel1", "llmModel2",
        "embeddingModel", "rerankerModel", "useMainAsSide"] ∧
    "apiKey" ∉ (settingsToStore (runSettings st0 es).settings).map Prod.fst ∧
    "sideApiKey" ∉ (settingsToStore (runSettings st0 es).settings).map Prod.fst := by
  refine ⟨rfl, ?_, ?_⟩ <;> simp [settingsToStore]

/-- C6 (counterexample): from a state with `useMainAsSide = true`, the
update `{llmModel1: "m2", useMainAsSide: false}` sets the primary model
without mirroring it: the mirroring is keyed on the post-merge flag, not
on the flag of the state the call started from. -/
theorem c6_counterexample :
    ({ DEFAULT_SETTINGS with useMainAsSide := true, llmModel2 := "old" } : Settings).useMainAsSide = true ∧
    ({ llmModel1 := some "m2", useMainAsSide := some false } : PartialSettings).llmModel1 = some "m2" ∧
    (applyUpdate { DEFAULT_SETTINGS with useMainAsSide := true, llmModel2 := "old" }
        { llmModel1 := some "m2", useMainAsSide := some false }).llmModel2 ≠ "m2" := by
  refine ⟨rfl, rfl, ?_⟩
  decide

/-- C6 (amended): whenever the merged state's `useMainAsSide` flag is true
(the flag was true and the partial does not turn it off, or the partial
turns it on), a partial update supplying `llmModel1` (resp. `apiKey`)
yields a state whose `llmModel2` (resp. `sideApiKey`) equals the supplied
value. -/
theorem c6_mirroring (s : Settings) (p : PartialSettings)
    (h : p.useMainAsSide.getD s.useMainAsSide = true) :
    (∀ m, p.llmModel1 = some m → (applyUpdate s p).llmModel2 = m) ∧
    (∀ k, p.apiKey = some k → (applyUpdate s p).sideApiKey = k) := by
  constructor
  · intro m hm
    cases hk : p.apiKey <;> simp [applyUpdate, mergeSettings, h, hm, hk]
  · intro k hk
    cases hm : p.llmModel1 <;> simp [applyUpdate, mergeSettings, h, hk, hm]

/-- C6 witness: `updateSettings({llmModel1: "m2"})` under
`useMainAsSide = true` mirrors the secondary model. -/
theorem c6_mirroring_witness :
    (applyUpdate { DEFAULT_SETTINGS with useMainAsSide := true }
      { llmModel1 := some "m2" }).llmModel2 = "m2" :=
  (c6_mirroring { DEFAULT_SETTINGS with useMainAsSide := true }
    { llmModel1 := some "m2" } rfl).1 "m2" rfl

/-! ## Streaming lemmas -/

theorem runStream_cons (st : StreamState) (x : SSELine) (rest : List SSELine) :
    runStream st (x :: rest) = runStream (processLine st x) rest :=
  rfl

theorem runStream_append (st : StreamState) (l1 l2 : List SSELine) :
    runStream st (l1 ++ l2) = runStream (runStream st l1) l2 :=
  List.foldl_append ..

theorem processLine_delta_started (base : List Message) (fc d : String)
    (src : List Source) (hd : d ≠ "") :
    processLine ⟨base ++ [⟨Role.assistant, fc, some src⟩], fc, src, false⟩ (deltaLine d) =
      ⟨base ++ [⟨Role.assistant, fc ++ d, some src⟩], fc ++ d, src, false⟩ := by
  simp [processLine, deltaLine, jsTruthyStr, hd, updateLastIfAssistant_append]

theorem runStream_deltas_started (ds : List String) (base : List Message)
    (fc : String) (src : List Source) :
    runStream ⟨base ++ [⟨Role.assistant, fc, some src⟩], fc, src, false⟩
        (ds.map deltaLine) =
      ⟨base ++ [⟨Role.assistant, fc ++ concatStrings ds, some src⟩],
        fc ++ concatStrings ds, src, false⟩ := by
  induction ds generalizing fc with
  | nil => simp [runStream, concatStrings]
  | cons d rest ih =>
    by_cases hd : d = ""
    · subst hd
      have hstep : processLine ⟨base ++ [⟨Role.assistant, fc, some src⟩], fc, src, false⟩
          (deltaLine "") = ⟨base ++ [⟨Role.assistant, fc, some src⟩], fc, src, false⟩ := by
        simp [processLine, deltaLine, jsTruthyStr]
      rw [List.map_cons, runStream_cons, hstep, ih]
      simp [concatStrings]
    · rw [List.map_cons, runStream_cons, processLine_delta_started base fc d src hd, ih]
      simp [concatStrings, String.append_assoc]

theorem runStream_deltas_fresh (ds : List String) (M : List Message)
    (src : List Source) (hne : ¬ ds.all (· = "")) :
    runStream ⟨M, "", src, true⟩ (ds.map deltaLine) =
      ⟨M ++ [⟨Role.assistant, concatStrings ds, some src⟩],
        concatStrings ds, src, false⟩ := by
  induction ds with
  | nil => simp at hne
  | cons d rest ih =>
    by_cases hd : d = ""
    · subst hd
      have hstep : processLine ⟨M, "", src, true⟩ (deltaLine "") = ⟨M, "", src, true⟩ := by
        simp [processLine, deltaLine, jsTruthyStr]
      have hne' : ¬ rest.all (· = "") := by
        simp [List.all_cons] at hne
        simpa using hne
      rw [List.map_cons, runStream_cons, hstep, ih hne']
      simp [concatStrings]
    · have hstep : processLine ⟨M, "", src, true⟩ (deltaLine d) =
          ⟨M ++ [⟨Role.assistant, d, some src⟩], d, src, false⟩ := by
        simp [processLine, deltaLine, jsTruthyStr, hd]
      rw [List.map_cons, runStream_cons, hstep, runStream_deltas_started]
      simp [concatStrings]

/-! ## Claim theorems: chat streaming -/

/-- C2: for a successful `/api/chat` response streaming any sequence of
content-delta events (at least one of them non-empty) followed by the
`[DONE]` sentinel, `sendMessage` ends with exactly one assistant message
appended whose content is the in-order concatenation of the delta
fragments; the sentinel contributes nothing. -/
theorem c2_stream_accumulation (messages0 : List Message) (auth : AuthState)
    (content : String) (status : Nat) (ds : List String)
    (hok : httpOk status = true) (h401 : status ≠ 401)
    (hne : ¬ ds.all (· = "")) :
    sendMessage messages0 auth content
        { status := status, errContent := none,
          stream := some (ds.map deltaLine ++ [SSELine.dataDone]) } =
      ⟨messages0 ++ [userMsg content, ⟨Role.assistant, concatStrings ds, some []⟩],
        auth, 1, false⟩ := by
  unfold sendMessage
  simp only [h401, hok, if_false, if_true, Bool.not_true, ite_false, ite_true]
  rw [runStream_append, runStream_deltas_fresh ds _ [] hne]
  have hdone : runStream ⟨(messages0 ++ [userMsg content]) ++
      [⟨Role.assistant, concatStrings ds, some []⟩], concatStrings ds, [], false⟩
      [SSELine.dataDone] = ⟨(messages0 ++ [userMsg content]) ++
      [⟨Role.assistant, concatStrings ds, some []⟩], concatStrings ds, [], false⟩ := rfl
  rw [hdone]
  simp [finalUpdate, updateLastIfAssistant_append2, List.append_assoc]

/-- C2 witness: the deltas `"Hel"`, `"lo"`, `" world"` followed by
`[DONE]` accumulate to `"Hello world"`. -/
theorem c2_stream_accumulation_witness :
    sendMessage [] ⟨some "t", some "t"⟩ "hi"
        { status := 200, errContent := none,
          stream := some (["Hel", "lo", " world"].map deltaLine ++ [SSELine.dataDone]) } =
      ⟨[userMsg "hi", ⟨Role.assistant, "Hello world", some []⟩],
        ⟨some "t", some "t"⟩, 1, false⟩ := by
  rw [c2_stream_accumulation [] ⟨some "t", some "t"⟩ "hi" 200 ["Hel", "lo", " world"]
    (by decide) (by decide) (by decide)]
  decide

/-- C3 (counterexample): a `data:`-prefixed `{type: "error", content:
"boom"}` event arriving before any content fragment neither rewrites nor
creates an assistant message (the transcript's last message is the user
turn), and the stream keeps being processed: a later delta produces an
assistant message reading `"hi"`, and no message ever reads
`"Error: boom"`. -/
theorem c3_counterexample :
    (sendMessage [] ⟨some "t", some "t"⟩ "q"
        { status := 200, errContent := none,
          stream := some [SSELine.dataJson { type := some "error", content := some "boom" },
            deltaLine "hi", SSELine.dataDone] }).messages =
      [userMsg "q", ⟨Role.assistant, "hi", some []⟩] ∧
    ∀ m ∈ (sendMessage [] ⟨some "t", some "t"⟩ "q"
        { status := 200, errContent := none,
          stream := some [SSELine.dataJson { type := some "error", content := some "boom" },
            deltaLine "hi", SSELine.dataDone] }).messages,
      m.content ≠ "Error: boom" := by
  decide

/-- C3 (amended): a `data:`-prefixed `{type: "error", content}` event
rewrites the transcript's last message to `Error: <content>` (falling back
to `An error occurred`) only when that message is an assistant message —
no assistant message is created otherwise — and the remaining lines of
the stream are still processed afterwards. -/
theorem c3_error_event (base : List Message) (m : Message) (fc : String)
    (src : List Source) (first : Bool) (c : Option String) (rest : List SSELine) :
    runStream ⟨base ++ [m], fc, src, first⟩
        (SSELine.dataJson { type := some "error", content := c } :: rest) =
      runStream ⟨base ++ [if m.role = Role.assistant then
          { m with content := "Error: " ++ jsOrStr c "An error occurred" } else m],
        fc, src, first⟩ rest := by
  rw [runStream_cons]
  congr 1
  simp [processLine, updateLastIfAssistant_append]

/-- C4 (counterexample): a 500 response whose body carries
`content: "boom"` ends the transcript with the generic failure text, not
with `Error: boom`: the thrown error makes the `catch` handler rewrite
the just-appended error message. -/
theorem c4_counterexample :
    (sendMessage [] ⟨some "t", some "t"⟩ "q"
        { status := 500, errContent := some "boom",
          stream := some [deltaLine "x"] }).messages =
      [userMsg "q", ⟨Role.assistant, sorryText "boom", none⟩] ∧
    ∀ m ∈ (sendMessage [] ⟨some "t", some "t"⟩ "q"
        { status := 500, errContent := some "boom",
          stream := some [deltaLine "x"] }).messages,
      m.content ≠ "Error: boom" := by
  decide

/-- C4 (amended): for every non-2xx, non-401 response, `sendMessage` first
appends an assistant message reading `Error: <message>` (`<message>` being
the body's `content` field when present and non-empty, otherwise the
generic network-error text) and then, because of the throw it performs,
its catch handler rewrites that same message to the generic failure text
carrying `<message>`; the streamed body is never processed (the result
does not depend on it) and exactly one request is issued. -/
theorem c4_non_success_response (messages0 : List Message) (auth : AuthState)
    (content : String) (status : Nat) (errContent : Option String)
    (stream : Option (List SSELine)) (hok : httpOk status = false)
    (h401 : status ≠ 401) :
    sendMessage messages0 auth content ⟨status, errContent, stream⟩ =
      ⟨messages0 ++ [userMsg content,
          ⟨Role.assistant, sorryText (jsOrStr errContent "Network response was not ok"), none⟩],
        auth, 1, false⟩ := by
  unfold sendMessage
  simp only [h401, hok, Bool.not_false, if_false, if_true, ite_true, ite_false]
  rw [show messages0 ++ [userMsg content] ++
      [⟨Role.assistant, "Error: " ++ jsOrStr errContent "Network response was not ok", none⟩] =
      (messages0 ++ [userMsg content]) ++
      [⟨Role.assistant, "Error: " ++ jsOrStr errContent "Network response was not ok", none⟩] from rfl]
  rw [updateLastIfAssistant_append]
  simp [List.append_assoc]

/-- C4 witness: the amended behaviour at status 500 with body content
`"boom"`. -/
theorem c4_non_success_response_witness :
    sendMessage [] ⟨some "t", some "t"⟩ "q"
        ⟨500, some "boom", some [deltaLine "x"]⟩ =
      ⟨[userMsg "q", ⟨Role.assistant, sorryText (jsOrStr (some "boom") "Network response was not ok"), none⟩],
        ⟨some "t", some "t"⟩, 1, false⟩ := by
  rw [c4_non_success_response [] ⟨some "t", some "t"⟩ "q" 500 (some "boom")
    (some [deltaLine "x"]) (by decide) (by decide)]
  decide

/-! ## Excerpt-cleaning lemmas

The idempotence proof rests on a stability notion: `goodBreaks p l` says
no line break of `l` is removable in its context, so the regex replacement
fixes `l`.  The output of the replacement is stable, and stability is
preserved by each of the trimming and cutting steps the algorithm then
applies. -/

theorem upper_ne_newline {c : Char} (h : isUpperAZ c = true) : c ≠ '\n' := by
  intro he
  subst he
  exact absurd h (by decide)

theorem upper_not_ws {c : Char} (h : isUpperAZ c = true) : isJsSpace c = false := by
  by_contra hws
  have hws' : isJsSpace c = true := by
    cases hx : isJsSpace c
    · exact absurd hx hws
    · rfl
  simp only [isJsSpace, Bool.or_eq_true, decide_eq_true_eq] at hws'
  rcases hws' with ((h1 | h1) | h1) | h1 <;> subst h1 <;> exact absurd h (by decide)

theorem replaceAux_of_good (l : List Char) (p : Option Char)
    (h : goodBreaks p l = true) : replaceBreaksAux p l = l := by
  induction l generalizing p with
  | nil => rfl
  | cons c rest ih =>
    simp only [goodBreaks, Bool.and_eq_true, Bool.or_eq_true,
      Bool.not_eq_true'] at h
    obtain ⟨hhead, htail⟩ := h
    have hstep : breakStep p c rest.head? = c := by
      rcases hhead with hc | hrem
      · simp only [beq_eq_false_iff_ne, ne_eq] at hc
        simp [breakStep, hc]
      · simp [breakStep, hrem]
    simp [replaceBreaksAux, hstep, ih _ htail]

theorem goodBreaks_replaceAux (l : List Char) : ∀ (p p' : Option Char),
    (p' = p ∨ (p = some '\n' ∧ p' = some ' ' ∧ l.head? ≠ some '\n')) →
    goodBreaks p' (replaceBreaksAux p l) = true := by
  induction l with
  | nil => intro p p' _; rfl
  | cons c rest ih =>
    intro p p' hpp
    simp only [replaceBreaksAux, goodBreaks, Bool.and_eq_true]
    constructor
    · -- stability of the head character in its output context
      by_cases hc : c = '\n'
      · subst hc
        by_cases hrem : breakRemovable p rest.head? = true
        · have : breakStep p '\n' rest.head? = ' ' := by simp [breakStep, hrem]
          rw [this]
          simp
        · have hkept : breakStep p '\n' rest.head? = '\n' := by
            simp [breakStep, hrem]
          rw [hkept]
          have hp' : p' = p := by
            rcases hpp with h | ⟨_, _, hhd⟩
            · exact h
            · simp at hhd
          subst hp'
          simp only [Bool.or_eq_true, Bool.not_eq_true', beq_self_eq_true,
            Bool.not_true, Bool.false_or]
          -- the blocker of the kept line break persists in the output
          have hrem0 : breakRemovable p' rest.head? = false := by
            cases hx : breakRemovable p' rest.head?
            · rfl
            · exact absurd hx hrem
          by_cases hp1 : p' = some '\n'
          · simp [breakRemovable, hp1]
          · by_cases hp2 : p' = some '.'
            · simp [breakRemovable, hp2]
            · -- the failure of removability came from the following character
              have hnext : rest.head? = some '\n' ∨ optIsUpper rest.head? = true := by
                by_contra hn
                push_neg at hn
                have hu : optIsUpper rest.head? = false := by
                  cases hx : optIsUpper rest.head?
                  · rfl
                  · exact absurd hx hn.2
                have : breakRemovable p' rest.head? = true := by
                  simp [breakRemovable, hp1, hp2, hn.1, hu]
                rw [this] at hrem0
                exact absurd hrem0 (by simp)
              cases rest with
              | nil => simp [optIsUpper] at hnext
              | cons c2 r2 =>
                simp only [List.head?_cons, replaceBreaksAux] at hnext ⊢
                rcases hnext with h2 | h2
                · have hc2 : c2 = '\n' := by simpa using h2
                  subst hc2
                  have : breakStep (some '\n') '\n' r2.head? = '\n' := by
                    simp [breakStep, breakRemovable]
                  rw [this]
                  simp [breakRemovable]
                · have hc2 : c2 ≠ '\n' := upper_ne_newline (by simpa [optIsUpper] using h2)
                  have : breakStep (some '\n') c2 r2.head? = c2 := by
                    simp [breakStep, hc2]
                  rw [this]
                  simp only [breakRemovable, optIsUpper]
                  simp only [optIsUpper] at h2
                  simp [h2]
      · have : breakStep p c rest.head? = c := by simp [breakStep, hc]
        rw [this]
        simp [hc]
    · -- stability of the tail in its output context
      apply ih (some c) (some (breakStep p c rest.head?))
      by_cases hc : c = '\n'
      · subst hc
        by_cases hrem : breakRemovable p rest.head? = true
        · right
          refine ⟨rfl, by simp [breakStep, hrem], ?_⟩
          have h4 : (!(rest.head? == some '\n')) = true := by
            have hx := hrem
            simp only [breakRemovable, Bool.and_eq_true] at hx
            exact hx.1.2
          simpa using h4
        · left
          simp [breakStep, hrem]
      · left
        simp [breakStep, hc]

theorem goodBreaks_anyPrev (l : List Char) (p q : Option Char)
    (h : goodBreaks p l = true) (hhead : l.head? ≠ some '\n') :
    goodBreaks q l = true := by
  cases l with
  | nil => rfl
  | cons c rest =>
    have hc : c ≠ '\n' := by
      intro he
      exact hhead (by simp [he])
    simp only [goodBreaks, Bool.and_eq_true] at h ⊢
    exact ⟨by simp [hc], h.2⟩

theorem goodBreaks_ltrim (l : List Char) (p q : Option Char)
    (h : goodBreaks p l = true) : goodBreaks q (ltrim l) = true := by
  induction l generalizing p with
  | nil => rfl
  | cons c rest ih =>
    simp only [goodBreaks, Bool.and_eq_true] at h
    by_cases hws : isJsSpace c = true
    · have : ltrim (c :: rest) = ltrim rest := by
        simp [ltrim, List.dropWhile_cons, hws]
      rw [this]
      exact ih _ h.2
    · have hself : ltrim (c :: rest) = c :: rest := by
        simp [ltrim, List.dropWhile_cons, hws]
      rw [hself]
      have hc : c ≠ '\n' := by
        intro he
        subst he
        exact hws (by decide)
      apply goodBreaks_anyPrev _ p
      · simp only [goodBreaks, Bool.and_eq_true]
        exact h
      · simp [hc]

theorem rtrim_cons_of_ne (a : Char) (l : List Char) (h : rtrim l ≠ []) :
    rtrim (a :: l) = a :: rtrim l := by
  cases hr : rtrim l with
  | nil => exact absurd hr h
  | cons x xs =>
    simp only [rtrim]
    rw [hr]

theorem rtrim_head (l : List Char) (h : rtrim l ≠ []) :
    (rtrim l).head? = l.head? := by
  cases l with
  | nil => simp [rtrim] at h
  | cons c rest =>
    cases hr : rtrim rest with
    | nil =>
      by_cases hws : isJsSpace c = true
      · exact absurd (by simp [rtrim, hr, hws]) h
      · simp [rtrim, hr, hws]
    | cons x xs => simp [rtrim, hr]

theorem goodBreaks_rtrim (l : List Char) (p : Option Char)
    (h : goodBreaks p l = true) : goodBreaks p (rtrim l) = true := by
  induction l generalizing p with
  | nil => rfl
  | cons c rest ih =>
    simp only [goodBreaks, Bool.and_eq_true] at h
    obtain ⟨hhead, htail⟩ := h
    cases hr : rtrim rest with
    | nil =>
      by_cases hws : isJsSpace c = true
      · simp [rtrim, hr, hws, goodBreaks]
      · have hc : c ≠ '\n' := by
          intro he
          subst he
          exact hws (by decide)
        simp [rtrim, hr, hws, goodBreaks, hc]
    | cons x xs =>
      have hcons : rtrim (c :: rest) = c :: rtrim rest := by
        simp [rtrim, hr]
      rw [hcons]
      simp only [goodBreaks, Bool.and_eq_true]
      refine ⟨?_, ih _ htail⟩
      have hh : (rtrim rest).head? = rest.head? := by
        apply rtrim_head
        simp [hr]
      rw [hh]
      exact hhead

theorem rtrim_last_not_ws (l : List Char) (c : Char)
    (h : (rtrim l).getLast? = some c) : isJsSpace c = false := by
  induction l with
  | nil => simp [rtrim] at h
  | cons a rest ih =>
    cases hr : rtrim rest with
    | nil =>
      by_cases hws : isJsSpace a = true
      · rw [show rtrim (a :: rest) = [] from by simp [rtrim, hr, hws]] at h
        simp at h
      · rw [show rtrim (a :: rest) = [a] from by simp [rtrim, hr, hws]] at h
        simp at h
        subst h
        exact Bool.eq_false_iff.mpr hws
    | cons x xs =>
      rw [show rtrim (a :: rest) = a :: rtrim rest from by simp [rtrim, hr]] at h
      rw [hr, List.getLast?_cons_cons] at h
      apply ih
      rw [hr]
      exact h

theorem ltrim_head_not_ws (l : List Char) (c : Char)
    (h : (ltrim l).head? = some c) : isJsSpace c = false := by
  induction l with
  | nil => simp [ltrim] at h
  | cons a rest ih =>
    by_cases hws : isJsSpace a = true
    · rw [show ltrim (a :: rest) = ltrim rest from by
        simp [ltrim, List.dropWhile_cons, hws]] at h
      exact ih h
    · rw [show ltrim (a :: rest) = a :: rest from by
        simp [ltrim, List.dropWhile_cons, hws]] at h
      simp at h
      subst h
      exact Bool.eq_false_iff.mpr hws

theorem ltrim_eq_self (l : List Char)
    (h : ∀ c, l.head? = some c → isJsSpace c = false) : ltrim l = l := by
  cases l with
  | nil => rfl
  | cons a rest => simp [ltrim, List.dropWhile_cons, h a rfl]

theorem rtrim_eq_self (l : List Char)
    (h : ∀ c, l.getLast? = some c → isJsSpace c = false) : rtrim l = l := by
  induction l with
  | nil => rfl
  | cons a rest ih =>
    cases rest with
    | nil => simp [rtrim, h a (by simp)]
    | cons b bs =>
      have hr : rtrim (b :: bs) = b :: bs := by
        apply ih
        intro c hc
        apply h
        rwa [List.getLast?_cons_cons]
      rw [rtrim_cons_of_ne a _ (by rw [hr]; simp), hr]

theorem jsTrim_eq_self (l : List Char)
    (hh : ∀ c, l.head? = some c → isJsSpace c = false)
    (hl : ∀ c, l.getLast? = some c → isJsSpace c = false) : jsTrim l = l := by
  unfold jsTrim
  rw [ltrim_eq_self l hh, rtrim_eq_self l hl]

theorem cutUpper_eq_of_head (l : List Char) (c : Char) (hl : l.head? = some c)
    (hc : isUpperAZ c = true) : cutBeforeFirstUpper l = some l := by
  cases l with
  | nil => simp at hl
  | cons a rest =>
    simp only [List.head?_cons, Option.some.injEq] at hl
    subst hl
    simp [cutBeforeFirstUpper, hc]

theorem cutUpper_head (l r : List Char) (h : cutBeforeFirstUpper l = some r) :
    ∃ c, r.head? = some c ∧ isUpperAZ c = true := by
  induction l with
  | nil => simp [cutBeforeFirstUpper] at h
  | cons a rest ih =>
    by_cases ha : isUpperAZ a = true
    · rw [show cutBeforeFirstUpper (a :: rest) = some (a :: rest) from by
        simp [cutBeforeFirstUpper, ha]] at h
      obtain rfl : a :: rest = r := by simpa using h
      exact ⟨a, rfl, ha⟩
    · rw [show cutBeforeFirstUpper (a :: rest) = cutBeforeFirstUpper rest from by
        simp [cutBeforeFirstUpper, ha]] at h
      exact ih h

theorem cutUpper_getLast (l r : List Char) (h : cutBeforeFirstUpper l = some r) :
    r.getLast? = l.getLast? := by
  induction l with
  | nil => simp [cutBeforeFirstUpper] at h
  | cons a rest ih =>
    by_cases ha : isUpperAZ a = true
    · rw [show cutBeforeFirstUpper (a :: rest) = some (a :: rest) from by
        simp [cutBeforeFirstUpper, ha]] at h
      obtain rfl : a :: rest = r := by simpa using h
      rfl
    · rw [show cutBeforeFirstUpper (a :: rest) = cutBeforeFirstUpper rest from by
        simp [cutBeforeFirstUpper, ha]] at h
      cases rest with
      | nil => simp [cutBeforeFirstUpper] at h
      | cons b bs => rw [ih h, List.getLast?_cons_cons]

theorem goodBreaks_cutUpper (l : List Char) (p q : Option Char) (r : List Char)
    (hg : goodBreaks p l = true) (h : cutBeforeFirstUpper l = some r) :
    goodBreaks q r = true := by
  induction l generalizing p with
  | nil => simp [cutBeforeFirstUpper] at h
  | cons a rest ih =>
    simp only [goodBreaks, Bool.and_eq_true] at hg
    by_cases ha : isUpperAZ a = true
    · rw [show cutBeforeFirstUpper (a :: rest) = some (a :: rest) from by
        simp [cutBeforeFirstUpper, ha]] at h
      obtain rfl : a :: rest = r := by simpa using h
      apply goodBreaks_anyPrev _ p
      · simp only [goodBreaks, Bool.and_eq_true]
        exact hg
      · simp [upper_ne_newline ha]
    · rw [show cutBeforeFirstUpper (a :: rest) = cutBeforeFirstUpper rest from by
        simp [cutBeforeFirstUpper, ha]] at h
      exact ih _ hg.2 h

theorem cutPeriod_head (l r : List Char) (h : cutAfterLastPeriod l = some r) :
    r.head? = l.head? := by
  cases l with
  | nil => simp [cutAfterLastPeriod] at h
  | cons a rest =>
    cases hr : cutAfterLastPeriod rest with
    | some r2 =>
      rw [show cutAfterLastPeriod (a :: rest) = some (a :: r2) from by
        simp only [cutAfterLastPeriod]; rw [hr]] at h
      obtain rfl : a :: r2 = r := by simpa using h
      rfl
    | none =>
      by_cases ha : a = '.'
      · rw [show cutAfterLastPeriod (a :: rest) = some [a] from by
          simp only [cutAfterLastPeriod]; rw [hr]; simp [ha]] at h
        obtain rfl : [a] = r := by simpa using h
        rfl
      · rw [show cutAfterLastPeriod (a :: rest) = none from by
          simp only [cutAfterLastPeriod]; rw [hr]; simp [ha]] at h
        simp at h

theorem cutPeriod_getLast (l r : List Char) (h : cutAfterLastPeriod l = some r) :
    r.getLast? = some '.' := by
  induction l generalizing r with
  | nil => simp [cutAfterLastPeriod] at h
  | cons a rest ih =>
    cases hr : cutAfterLastPeriod rest with
    | some r2 =>
      rw [show cutAfterLastPeriod (a :: rest) = some (a :: r2) from by
        simp only [cutAfterLastPeriod]; rw [hr]] at h
      obtain rfl : a :: r2 = r := by simpa using h
      have h2 := ih r2 hr
      cases r2 with
      | nil => simp at h2
      | cons x xs => rw [List.getLast?_cons_cons]; exact h2
    | none =>
      by_cases ha : a = '.'
      · rw [show cutAfterLastPeriod (a :: rest) = some [a] from by
          simp only [cutAfterLastPeriod]; rw [hr]; simp [ha]] at h
        obtain rfl : [a] = r := by simpa using h
        simp [ha]
      · rw [show cutAfterLastPeriod (a :: rest) = none from by
          simp only [cutAfterLastPeriod]; rw [hr]; simp [ha]] at h
        simp at h

theorem goodBreaks_cutPeriod (l : List Char) (p : Option Char) (r : List Char)
    (hg : goodBreaks p l = true) (h : cutAfterLastPeriod l = some r) :
    goodBreaks p r = true := by
  induction l generalizing p r with
  | nil => simp [cutAfterLastPeriod] at h
  | cons a rest ih =>
    simp only [goodBreaks, Bool.and_eq_true] at hg
    cases hr : cutAfterLastPeriod rest with
    | some r2 =>
      rw [show cutAfterLastPeriod (a :: rest) = some (a :: r2) from by
        simp only [cutAfterLastPeriod]; rw [hr]] at h
      obtain rfl : a :: r2 = r := by simpa using h
      simp only [goodBreaks, Bool.and_eq_true]
      refine ⟨?_, ih (some a) r2 hg.2 hr⟩
      rw [cutPeriod_head rest r2 hr]
      exact hg.1
    | none =>
      by_cases ha : a = '.'
      · rw [show cutAfterLastPeriod (a :: rest) = some [a] from by
          simp only [cutAfterLastPeriod]; rw [hr]; simp [ha]] at h
        obtain rfl : [a] = r := by simpa using h
        subst ha
        simp [goodBreaks]
      · rw [show cutAfterLastPeriod (a :: rest) = none from by
          simp only [cutAfterLastPeriod]; rw [hr]; simp [ha]] at h
        simp at h

theorem cutPeriod_cons (a : Char) (l : List Char) :
    cutAfterLastPeriod (a :: l) =
      match cutAfterLastPeriod l with
      | some r => some (a :: r)
      | none => if a = '.' then some [a] else none := rfl

theorem cutPeriod_of_getLast (l : List Char) (h : l.getLast? = some '.') :
    cutAfterLastPeriod l = some l := by
  induction l with
  | nil => simp at h
  | cons a rest ih =>
    cases rest with
    | nil =>
      simp only [List.getLast?_singleton, Option.some.injEq] at h
      simp [cutAfterLastPeriod, h]
    | cons b bs =>
      have h' : (b :: bs).getLast? = some '.' := by
        rwa [List.getLast?_cons_cons] at h
      have hcut := ih h'
      rw [cutPeriod_cons, hcut]

theorem formatChunkList_idem (l : List Char) :
    formatChunkList (formatChunkList l) = formatChunkList l := by
  have hgb : goodBreaks none (jsTrim (replaceBreaks l)) = true := by
    unfold jsTrim
    exact goodBreaks_rtrim _ none (goodBreaks_ltrim _ none none
      (goodBreaks_replaceAux l none none (Or.inl rfl)))
  have hbhead : ∀ c, (jsTrim (replaceBreaks l)).head? = some c → isJsSpace c = false := by
    intro c hc
    unfold jsTrim at hc
    by_cases hne : rtrim (ltrim (replaceBreaks l)) = []
    · rw [hne] at hc
      simp at hc
    · rw [rtrim_head _ hne] at hc
      exact ltrim_head_not_ws _ _ hc
  have hblast : ∀ c, (jsTrim (replaceBreaks l)).getLast? = some c →
      isJsSpace c = false := by
    intro c hc
    unfold jsTrim at hc
    exact rtrim_last_not_ws _ _ hc
  cases hcu : cutBeforeFirstUpper (jsTrim (replaceBreaks l)) with
  | none =>
    have hout : formatChunkList l = jsTrim (replaceBreaks l) := by
      simp only [formatChunkList, hcu]
    rw [hout]
    have hrb : replaceBreaks (jsTrim (replaceBreaks l)) = jsTrim (replaceBreaks l) :=
      replaceAux_of_good _ none hgb
    simp only [formatChunkList, hrb, jsTrim_eq_self _ hbhead hblast, hcu]
  | some u =>
    have hgu : goodBreaks none u = true := goodBreaks_cutUpper _ none none u hgb hcu
    obtain ⟨cu, hcu_head, hcu_up⟩ := cutUpper_head _ u hcu
    have hul : u.getLast? = (jsTrim (replaceBreaks l)).getLast? :=
      cutUpper_getLast _ u hcu
    have huhead : ∀ c, u.head? = some c → isJsSpace c = false := by
      intro c hc
      rw [hcu_head] at hc
      obtain rfl : cu = c := by simpa using hc
      exact upper_not_ws hcu_up
    have hulast : ∀ c, u.getLast? = some c → isJsSpace c = false := by
      intro c hc
      rw [hul] at hc
      exact hblast c hc
    cases hcp : cutAfterLastPeriod u with
    | none =>
      have hout : formatChunkList l = u := by
        simp only [formatChunkList, hcu, hcp]
      rw [hout]
      have hrb : replaceBreaks u = u := replaceAux_of_good _ none hgu
      have htu : jsTrim u = u := jsTrim_eq_self _ huhead hulast
      have hcu2 : cutBeforeFirstUpper u = some u :=
        cutUpper_eq_of_head _ cu hcu_head hcu_up
      simp only [formatChunkList, hrb, htu, hcu2, hcp]
    | some v =>
      have hgv : goodBreaks none v = true := goodBreaks_cutPeriod u none v hgu hcp
      have hvh : v.head? = u.head? := cutPeriod_head u v hcp
      have hvl : v.getLast? = some '.' := cutPeriod_getLast u v hcp
      have hvhead : ∀ c, v.head? = some c → isJsSpace c = false := by
        intro c hc
        rw [hvh, hcu_head] at hc
        obtain rfl : cu = c := by simpa using hc
        exact upper_not_ws hcu_up
      have hvlast : ∀ c, v.getLast? = some c → isJsSpace c = false := by
        intro c hc
        rw [hvl] at hc
        obtain rfl : '.' = c := by simpa using hc
        decide
      have hout : formatChunkList l = v := by
        simp only [formatChunkList, hcu, hcp]
      rw [hout]
      have hrb : replaceBreaks v = v := replaceAux_of_good _ none hgv
      have htv : jsTrim v = v := jsTrim_eq_self _ hvhead hvlast
      have hcu2 : cutBeforeFirstUpper v = some v := by
        apply cutUpper_eq_of_head _ cu _ hcu_up
        rw [hvh]
        exact hcu_head
      have hcp2 : cutAfterLastPeriod v = some v := cutPeriod_of_getLast v hvl
      simp only [formatChunkList, hrb, htv, hcu2, hcp2]

/-! ## Claim theorem: excerpt cleaning -/

/-- C8: the excerpt-cleaning function of the citation tooltip is
idempotent: applying it to its own output changes nothing. -/
theorem c8_formatChunk_idempotent (s : String) :
    formatChunk (formatChunk s) = formatChunk s := by
  unfold formatChunk
  rw [show (String.mk (formatChunkList s.data)).data = formatChunkList s.data from rfl]
  rw [formatChunkList_idem]

/-! ## Claim theorems: forced logout -/

/-- C5: whenever a data-hook request — the history fetch, the chat send,
the settings fetch, the settings update, the document list, the document
upload or the document delete — answers with HTTP 401, the stored
credential and the token state are both cleared (so the derived
`isAuthenticated` is false) and the operation issues no further request:
exactly one request went out, and in particular the upload and delete do
not even attempt their follow-up list refresh. -/
theorem c5_forced_logout_on_401 (auth : AuthState) (t : String)
    (htok : auth.token = some t) (msgs : List Message) (content : String)
    (errContent : Option String) (stream : Option (List SSELine))
    (docs : List Document) (fileSize : Nat) (hsize : ¬ fileSize > MAX_FILE_SIZE)
    (st : SettingsHookState) (hst : st.auth = auth) (p : PartialSettings)
    (hp : touchesProfileFields p = true) (userResp : Except Nat UserData)
    (configResp : Except Nat ConfigData) (refetchResp : Except Nat UserData)
    (listResp : Except Nat (List Document)) :
    isAuthenticated ⟨none, none⟩ = false ∧
    (fetchHistory msgs auth (.error 401) = ⟨msgs, ⟨none, none⟩, 1⟩) ∧
    ((sendMessage msgs auth content ⟨401, errContent, stream⟩).auth = ⟨none, none⟩ ∧
      (sendMessage msgs auth content ⟨401, errContent, stream⟩).requests = 1) ∧
    (fetchSettingsData st (.error 401) userResp configResp =
      ({ st with auth := ⟨none, none⟩ }, 1)) ∧
    (updateSettings st p true (.error 401) refetchResp =
      ({ st with settings := applyUpdate st.settings p, auth := ⟨none, none⟩ }, 1)) ∧
    (fetchDocuments docs auth (.error 401) = ⟨docs, ⟨none, none⟩, 1⟩) ∧
    (uploadDocument docs auth fileSize (.error 401) listResp =
      ⟨docs, ⟨none, none⟩, 1, 0, [], true, false⟩) ∧
    (deleteDocument docs auth (.error 401) listResp = ⟨docs, ⟨none, none⟩, 1, 0⟩) := by
  refine ⟨rfl, ?_, ?_, ?_, ?_, ?_, ?_, ?_⟩
  · simp [fetchHistory, htok, logout]
  · constructor <;> simp [sendMessage, logout]
  · simp [fetchSettingsData, hst, htok, logout]
  · simp [updateSettings, hp, hst, htok, logout]
  · simp [fetchDocuments, htok, logout]
  · unfold uploadDocument
    rw [htok]
    simp [hsize, logout]
  · simp [deleteDocument, htok, logout]

/-- C5 witness: the forced logout of the document-list fetch at concrete
inputs. -/
theorem c5_forced_logout_on_401_witness :
    fetchDocuments [] ⟨some "t", some "t"⟩ (.error 401) =
      ⟨[], ⟨none, none⟩, 1⟩ :=
  (c5_forced_logout_on_401 ⟨some "t", some "t"⟩ "t" rfl [] "" none none [] 0
    (by decide) ⟨DEFAULT_SETTINGS, [], none, none, ⟨some "t", some "t"⟩⟩ rfl
    { llmModel1 := some "m" } (by decide) (Except.ok {}) (Except.error 500)
    (Except.ok {}) (Except.ok [])).2.2.2.2.2.1

end RAG
